import Mathlib

/-
Verification of the movie-graph ETL pipeline (movie_graph/etl/process.py)
against its design specification.

The transform stage is embedded shallowly: pandas rows become a `Row`
structure whose five nested-collection columns are lists of entries with
optional fields (Python dict access `d['k']` raises `KeyError` when the key
is absent, modelled by `Option` fields and an `Except KeyError` result).
Python dicts used for entity deduplication are modelled as association
lists with in-place update (`upsert`), which reproduces dict semantics:
a repeated key keeps its original position and takes the new value, a new
key is appended at the end.  Numeric cells (budget, popularity, ...) are
only copied by the transform, never computed with, so they are modelled
as integers.
-/

namespace MovieGraph

/-- Entry of the `genres` / `keywords` columns: a parsed JSON object whose
`id` and `name` keys may be absent. -/
structure NamedEntry where
  id : Option Int
  name : Option String
  deriving Repr, DecidableEq

/-- Entry of the `production_companies` column. -/
structure CompanyEntry where
  id : Option Int
  name : Option String
  origin_country : Option String
  deriving Repr, DecidableEq

/-- Entry of the `cast` column. -/
structure CastEntry where
  id : Option Int
  name : Option String
  gender : Option Int
  profile_path : Option String
  character : Option String
  deriving Repr, DecidableEq

/-- Entry of the `crew` column. -/
structure CrewEntry where
  id : Option Int
  name : Option String
  gender : Option Int
  profile_path : Option String
  job : Option String
  department : Option String
  deriving Repr, DecidableEq

/-- One joined row as delivered by `extract_data`: the nine required scalar
columns are guaranteed present (extract_data synthesizes defaults), the five
collection columns are already parsed into entry lists. -/
structure Row where
  id : Int
  title : String
  release_date : String
  budget : Int
  revenue : Int
  popularity : Int
  vote_average : Int
  vote_count : Int
  overview : String
  genres : List NamedEntry
  keywords : List NamedEntry
  production_companies : List CompanyEntry
  cast : List CastEntry
  crew : List CrewEntry
  deriving Repr, DecidableEq

/-- Movie node record (process.py, transform_data, the `movie` dict). -/
structure Movie where
  id : Int
  title : String
  release_date : String
  budget : Int
  revenue : Int
  popularity : Int
  vote_average : Int
  vote_count : Int
  overview : String
  deriving Repr, DecidableEq

/-- Person node record. -/
structure Person where
  id : Int
  name : String
  gender : Int
  profile_path : String
  deriving Repr, DecidableEq

/-- Genre node record. -/
structure Genre where
  id : Int
  name : String
  deriving Repr, DecidableEq

/-- Keyword node record. -/
structure Keyword where
  id : Int
  name : String
  deriving Repr, DecidableEq

/-- Company node record. -/
structure Company where
  id : Int
  name : String
  origin_country : String
  deriving Repr, DecidableEq

/-- ACTED_IN relationship record. -/
structure ActedIn where
  person_id : Int
  movie_id : Int
  character : String
  order : Nat
  deriving Repr, DecidableEq

/-- DIRECTED relationship record. -/
structure Directed where
  person_id : Int
  movie_id : Int
  job : String
  department : String
  deriving Repr, DecidableEq

/-- PRODUCED relationship record. -/
structure Produced where
  movie_id : Int
  company_id : Int
  deriving Repr, DecidableEq

/-- CATEGORIZED_AS relationship record. -/
structure CategorizedAs where
  movie_id : Int
  genre_id : Int
  deriving Repr, DecidableEq

/-- TAGGED_WITH relationship record. -/
structure TaggedWith where
  movie_id : Int
  keyword_id : Int
  deriving Repr, DecidableEq

/-- Python `KeyError`, raised by `d['k']` on a dict lacking key `k`; it
carries only the missing key. -/
structure KeyError where
  key : String
  deriving Repr, DecidableEq

/-- Python dict semantics for `d[k] = v` on an association list kept in
insertion order: replace the value in place if the key is present,
otherwise append the binding at the end. -/
def upsert (m : List (Int × α)) (k : Int) (v : α) : List (Int × α) :=
  match m with
  | [] => [(k, v)]
  | p :: rest => if p.1 = k then (k, v) :: rest else p :: upsert rest k v

/-- Fold a list of bindings into an association list with `upsert`. -/
def upsertAll (m : List (Int × α)) : List (Int × α) → List (Int × α)
  | [] => m
  | p :: ps => upsertAll (upsert m p.1 p.2) ps

/-- Lookup in an association list (first binding wins, as keys are unique
by construction here). -/
def olookup : List (Int × α) → Int → Option α
  | [], _ => none
  | p :: rest, k => if p.1 = k then some p.2 else olookup rest k

/-- Internal accumulator state of `transform_data`: the five node
collections (movies as a plain list, the four deduplicated ones as
insertion-ordered association lists) and the five relationship lists. -/
structure TState where
  movies : List Movie
  persons : List (Int × Person)
  genres : List (Int × Genre)
  keywords : List (Int × Keyword)
  companies : List (Int × Company)
  acted_in : List ActedIn
  directed : List Directed
  produced : List Produced
  categorized_as : List CategorizedAs
  tagged_with : List TaggedWith
  deriving Repr, DecidableEq

/-- The transform's result shape: `transformed_data` with nodes and
relationships flattened to one record per collection. -/
structure Output where
  movies : List Movie
  persons : List Person
  genres : List Genre
  keywords : List Keyword
  companies : List Company
  acted_in : List ActedIn
  directed : List Directed
  produced : List Produced
  categorized_as : List CategorizedAs
  tagged_with : List TaggedWith
  deriving Repr, DecidableEq

/-- Genre loop of transform_data (process.py lines 250-254): for each genre
entry, read `id` and `name` (KeyError if absent), upsert the Genre node and
append one CATEGORIZED_AS edge. -/
def procGenres (mid : Int) (s : TState) : List NamedEntry → Except KeyError TState
  | [] => .ok s
  | g :: gs =>
    match g.id with
    | none => .error ⟨"id"⟩
    | some genre_id =>
      match g.name with
      | none => .error ⟨"name"⟩
      | some nm =>
        procGenres mid
          { s with genres := upsert s.genres genre_id ⟨genre_id, nm⟩,
                   categorized_as := s.categorized_as ++ [⟨mid, genre_id⟩] } gs

/-- Keyword loop of transform_data (process.py lines 256-260). -/
def procKeywords (mid : Int) (s : TState) : List NamedEntry → Except KeyError TState
  | [] => .ok s
  | g :: gs =>
    match g.id with
    | none => .error ⟨"id"⟩
    | some keyword_id =>
      match g.name with
      | none => .error ⟨"name"⟩
      | some nm =>
        procKeywords mid
          { s with keywords := upsert s.keywords keyword_id ⟨keyword_id, nm⟩,
                   tagged_with := s.tagged_with ++ [⟨mid, keyword_id⟩] } gs

/-- Production-company loop of transform_data (process.py lines 262-270);
`origin_country` is read with `.get(..., '')` so it never raises. -/
def procCompanies (mid : Int) (s : TState) : List CompanyEntry → Except KeyError TState
  | [] => .ok s
  | c :: cs =>
    match c.id with
    | none => .error ⟨"id"⟩
    | some company_id =>
      match c.name with
      | none => .error ⟨"name"⟩
      | some nm =>
        procCompanies mid
          { s with companies := upsert s.companies company_id
                     ⟨company_id, nm, c.origin_country.getD ""⟩,
                   produced := s.produced ++ [⟨mid, company_id⟩] } cs

/-- Cast loop of transform_data (process.py lines 272-286): the caller
passes the already-truncated list `row['cast'][:10]`; `i` is the running
`enumerate` index.  Keys `id`, `name`, `character` raise on absence (in that
access order); `gender` and `profile_path` default via `.get`. -/
def procCast (mid : Int) (s : TState) (i : Nat) : List CastEntry → Except KeyError TState
  | [] => .ok s
  | a :: rest =>
    match a.id with
    | none => .error ⟨"id"⟩
    | some person_id =>
      match a.name with
      | none => .error ⟨"name"⟩
      | some nm =>
        match a.character with
        | none => .error ⟨"character"⟩
        | some ch =>
          procCast mid
            { s with persons := upsert s.persons person_id
                       ⟨person_id, nm, a.gender.getD 0, a.profile_path.getD ""⟩,
                     acted_in := s.acted_in ++ [⟨person_id, mid, ch, i⟩] } (i + 1) rest

/-- Crew loop of transform_data (process.py lines 288-303): `job` is read
for every entry; only entries whose job is exactly "Director" are processed
further (`id`, `name`, `department` raising on absence, in that order). -/
def procCrew (mid : Int) (s : TState) : List CrewEntry → Except KeyError TState
  | [] => .ok s
  | c :: cs =>
    match c.job with
    | none => .error ⟨"job"⟩
    | some jb =>
      if jb = "Director" then
        match c.id with
        | none => .error ⟨"id"⟩
        | some person_id =>
          match c.name with
          | none => .error ⟨"name"⟩
          | some nm =>
            match c.department with
            | none => .error ⟨"department"⟩
            | some dept =>
              procCrew mid
                { s with persons := upsert s.persons person_id
                           ⟨person_id, nm, c.gender.getD 0, c.profile_path.getD ""⟩,
                         directed := s.directed ++ [⟨person_id, mid, jb, dept⟩] } cs
      else
        procCrew mid s cs

/-- Movie node built from a row's nine scalar columns (process.py lines
237-247). -/
def movieOf (r : Row) : Movie :=
  ⟨r.id, r.title, r.release_date, r.budget, r.revenue, r.popularity,
   r.vote_average, r.vote_count, r.overview⟩

/-- Exception propagation: continue with the intermediate state unless a
KeyError was raised. -/
def andThen (e : Except KeyError TState) (f : TState → Except KeyError TState) :
    Except KeyError TState :=
  match e with
  | .error err => .error err
  | .ok st => f st

/-- Body of transform_data's per-row loop (process.py lines 233-303):
append the movie node, then process genres, keywords, companies, the first
ten cast entries, and the crew, in the source's order. -/
def processRow (s : TState) (r : Row) : Except KeyError TState :=
  andThen (procGenres r.id { s with movies := s.movies ++ [movieOf r] } r.genres) fun s2 =>
  andThen (procKeywords r.id s2 r.keywords) fun s3 =>
  andThen (procCompanies r.id s3 r.production_companies) fun s4 =>
  andThen (procCast r.id s4 0 (r.cast.take 10)) fun s5 =>
  procCrew r.id s5 r.crew

/-- Iterate `processRow` over the row sequence; a raised KeyError aborts
the whole transform (Python exception propagation). -/
def runRows (s : TState) : List Row → Except KeyError TState
  | [] => .ok s
  | r :: rs =>
    match processRow s r with
    | .error e => .error e
    | .ok s2 => runRows s2 rs

/-- Empty accumulator state (process.py lines 219-230). -/
def initState : TState := ⟨[], [], [], [], [], [], [], [], [], []⟩

/-- Final conversion `list(d.values())` for the deduplicated collections
(process.py lines 305-326). -/
def outputOf (s : TState) : Output :=
  ⟨s.movies, s.persons.map Prod.snd, s.genres.map Prod.snd,
   s.keywords.map Prod.snd, s.companies.map Prod.snd,
   s.acted_in, s.directed, s.produced, s.categorized_as, s.tagged_with⟩

/-- transform_data (process.py lines 206-328). -/
def transform_data (rows : List Row) : Except KeyError Output :=
  match runRows initState rows with
  | .error e => .error e
  | .ok s => .ok (outputOf s)

/-- Genre entry carries both required keys. -/
def namedComplete (g : NamedEntry) : Bool := g.id.isSome && g.name.isSome

/-- Company entry carries both required keys. -/
def companyComplete (c : CompanyEntry) : Bool := c.id.isSome && c.name.isSome

/-- Cast entry carries the three keys read with raising access. -/
def castComplete (a : CastEntry) : Bool :=
  a.id.isSome && a.name.isSome && a.character.isSome

/-- Crew entry can be scanned without a KeyError: `job` must be present,
and a Director entry additionally needs `id`, `name`, `department`. -/
def crewComplete (c : CrewEntry) : Bool :=
  c.job.isSome &&
    (if c.job = some "Director" then c.id.isSome && c.name.isSome && c.department.isSome
     else true)

/-- All nested entries the transform actually touches in this row carry
their expected keys (cast entries beyond the first ten are never read). -/
def rowComplete (r : Row) : Bool :=
  r.genres.all namedComplete && r.keywords.all namedComplete &&
  r.production_companies.all companyComplete &&
  (r.cast.take 10).all castComplete && r.crew.all crewComplete

/-- Genre upsert bindings performed by one row, in processing order. -/
def genrePairs (gs : List NamedEntry) : List (Int × Genre) :=
  gs.map fun g => (g.id.getD 0, ⟨g.id.getD 0, g.name.getD ""⟩)

/-- Keyword upsert bindings performed by one row, in processing order. -/
def keywordPairs (ks : List NamedEntry) : List (Int × Keyword) :=
  ks.map fun k => (k.id.getD 0, ⟨k.id.getD 0, k.name.getD ""⟩)

/-- Company upsert bindings performed by one row, in processing order. -/
def companyPairs (cs : List CompanyEntry) : List (Int × Company) :=
  cs.map fun c => (c.id.getD 0, ⟨c.id.getD 0, c.name.getD "", c.origin_country.getD ""⟩)

/-- Person upsert bindings performed by the cast loop (already truncated). -/
def castPairs (l : List CastEntry) : List (Int × Person) :=
  l.map fun a => (a.id.getD 0, ⟨a.id.getD 0, a.name.getD "", a.gender.getD 0, a.profile_path.getD ""⟩)

/-- Person upsert bindings performed by the crew loop: only entries whose
job is exactly "Director". -/
def crewPairs (cs : List CrewEntry) : List (Int × Person) :=
  (cs.filter fun c => c.job == some "Director").map fun c =>
    (c.id.getD 0, ⟨c.id.getD 0, c.name.getD "", c.gender.getD 0, c.profile_path.getD ""⟩)

/-- Person upsert bindings of one whole row: the first ten cast entries
first, then the Director crew entries (the source processes cast before
crew within each row). -/
def personPairs (r : Row) : List (Int × Person) :=
  castPairs (r.cast.take 10) ++ crewPairs r.crew

/-- CATEGORIZED_AS edges appended by one row. -/
def catEdges (mid : Int) (gs : List NamedEntry) : List CategorizedAs :=
  gs.map fun g => ⟨mid, g.id.getD 0⟩

/-- TAGGED_WITH edges appended by one row. -/
def tagEdges (mid : Int) (ks : List NamedEntry) : List TaggedWith :=
  ks.map fun k => ⟨mid, k.id.getD 0⟩

/-- PRODUCED edges appended by one row. -/
def prodEdges (mid : Int) (cs : List CompanyEntry) : List Produced :=
  cs.map fun c => ⟨mid, c.id.getD 0⟩

/-- ACTED_IN edges appended by the cast loop, `i` being the enumerate
index of the first entry. -/
def castEdges (mid : Int) (i : Nat) : List CastEntry → List ActedIn
  | [] => []
  | a :: rest => ⟨a.id.getD 0, mid, a.character.getD "", i⟩ :: castEdges mid (i + 1) rest

/-- ACTED_IN edges of one row: one per entry of `row['cast'][:10]`, with
zero-based order. -/
def rowActedIn (r : Row) : List ActedIn := castEdges r.id 0 (r.cast.take 10)

/-- DIRECTED edges produced by scanning a crew list: exactly one per entry
whose job equals the literal string "Director". -/
def crewEdges (mid : Int) (l : List CrewEntry) : List Directed :=
  (l.filter fun c => c.job == some "Director").map fun c =>
    ⟨c.id.getD 0, mid, c.job.getD "", c.department.getD ""⟩

/-- DIRECTED edges of one row. -/
def rowDirected (r : Row) : List Directed := crewEdges r.id r.crew

/-- Pure effect of one successfully processed row on the accumulator. -/
def applyRow (s : TState) (r : Row) : TState where
  movies := s.movies ++ [movieOf r]
  persons := upsertAll s.persons (personPairs r)
  genres := upsertAll s.genres (genrePairs r.genres)
  keywords := upsertAll s.keywords (keywordPairs r.keywords)
  companies := upsertAll s.companies (companyPairs r.production_companies)
  acted_in := s.acted_in ++ rowActedIn r
  directed := s.directed ++ rowDirected r
  produced := s.produced ++ prodEdges r.id r.production_companies
  categorized_as := s.categorized_as ++ catEdges r.id r.genres
  tagged_with := s.tagged_with ++ tagEdges r.id r.keywords

/-- Concatenation of a per-row list over the row sequence. -/
def collectAll (f : Row → List α) : List Row → List α
  | [] => []
  | r :: rs => f r ++ collectAll f rs

/-- Keys of a key sequence that are new relative to `seen`, kept in order
of first occurrence. -/
def newKeys (seen : List Int) : List Int → List Int
  | [] => []
  | k :: ks => if k ∈ seen then newKeys seen ks else k :: newKeys (k :: seen) ks

/-- Identifiers of a key sequence in order of first occurrence. -/
def firstOccs (ks : List Int) : List Int := newKeys [] ks

/-- Value of the last binding of key `k` in a binding sequence. -/
def lastAssoc (us : List (Int × α)) (k : Int) : Option α :=
  match us with
  | [] => none
  | p :: ps =>
    match lastAssoc ps k with
    | some v => some v
    | none => if p.1 = k then some p.2 else none

theorem map_fst_upsert (m : List (Int × α)) (k : Int) (v : α) :
    (upsert m k v).map Prod.fst =
      if k ∈ m.map Prod.fst then m.map Prod.fst else m.map Prod.fst ++ [k] := by
  induction m with
  | nil => simp [upsert]
  | cons p rest ih =>
    by_cases h : p.1 = k
    · simp [upsert, h]
    · have h2 : ¬ k = p.1 := fun hh => h hh.symm
      by_cases h3 : k ∈ rest.map Prod.fst <;> simp [upsert, h, h2, h3, ih]

theorem newKeys_congr : ∀ (ks s1 s2 : List Int), (∀ x, x ∈ s1 ↔ x ∈ s2) →
    newKeys s1 ks = newKeys s2 ks
  | [], _, _, _ => rfl
  | k :: ks, s1, s2, h => by
    by_cases hk : k ∈ s1
    · rw [newKeys, newKeys, if_pos hk, if_pos ((h k).mp hk)]
      exact newKeys_congr ks s1 s2 h
    · rw [newKeys, newKeys, if_neg hk, if_neg (fun hh => hk ((h k).mpr hh))]
      exact congrArg (k :: ·) (newKeys_congr ks (k :: s1) (k :: s2)
        (fun x => by simp [List.mem_cons, h x]))

theorem mem_newKeys : ∀ (ks seen : List Int) (k : Int),
    k ∈ newKeys seen ks ↔ (k ∈ ks ∧ k ∉ seen)
  | [], seen, k => by simp [newKeys]
  | a :: ks, seen, k => by
    by_cases ha : a ∈ seen
    · rw [newKeys, if_pos ha, mem_newKeys ks seen k]
      constructor
      · rintro ⟨h1, h2⟩
        exact ⟨List.mem_cons_of_mem a h1, h2⟩
      · rintro ⟨h1, h2⟩
        rcases List.mem_cons.mp h1 with rfl | h1
        · exact absurd ha h2
        · exact ⟨h1, h2⟩
    · rw [newKeys, if_neg ha]
      constructor
      · intro hmem
        rcases List.mem_cons.mp hmem with rfl | hmem
        · exact ⟨List.mem_cons_self k ks, ha⟩
        · rcases (mem_newKeys ks (a :: seen) k).mp hmem with ⟨h1, h2⟩
          exact ⟨List.mem_cons_of_mem a h1, fun hs => h2 (List.mem_cons_of_mem a hs)⟩
      · rintro ⟨h1, h2⟩
        rcases List.mem_cons.mp h1 with rfl | h1
        · exact List.mem_cons_self k _
        · by_cases hka : k = a
          · exact hka ▸ List.mem_cons_self k _
          · exact List.mem_cons_of_mem a ((mem_newKeys ks (a :: seen) k).mpr
              ⟨h1, fun hs => (List.mem_cons.mp hs).elim hka h2⟩)

theorem newKeys_nodup : ∀ (ks seen : List Int), (newKeys seen ks).Nodup
  | [], _ => by simp [newKeys]
  | a :: ks, seen => by
    by_cases ha : a ∈ seen
    · rw [newKeys, if_pos ha]
      exact newKeys_nodup ks seen
    · rw [newKeys, if_neg ha]
      refine List.nodup_cons.mpr ⟨?_, newKeys_nodup ks (a :: seen)⟩
      intro hmem
      exact ((mem_newKeys ks (a :: seen) a).mp hmem).2 (List.mem_cons_self a seen)

theorem map_fst_upsertAll (us : List (Int × α)) : ∀ m : List (Int × α),
    (upsertAll m us).map Prod.fst =
      m.map Prod.fst ++ newKeys (m.map Prod.fst) (us.map Prod.fst) := by
  induction us with
  | nil => intro m; simp [upsertAll, newKeys]
  | cons p ps ih =>
    intro m
    by_cases h : p.1 ∈ m.map Prod.fst
    · rw [upsertAll, ih, map_fst_upsert, if_pos h, List.map_cons, newKeys, if_pos h]
    · rw [upsertAll, ih, map_fst_upsert, if_neg h, List.map_cons, newKeys, if_neg h]
      rw [newKeys_congr (ps.map Prod.fst) (m.map Prod.fst ++ [p.1]) (p.1 :: m.map Prod.fst)
        (fun x => by simp [List.mem_append, List.mem_cons, or_comm])]
      simp

theorem olookup_upsert (m : List (Int × α)) (k : Int) (v : α) (k2 : Int) :
    olookup (upsert m k v) k2 = if k = k2 then some v else olookup m k2 := by
  induction m with
  | nil => simp [upsert, olookup]
  | cons p rest ih =>
    rw [upsert]
    by_cases h : p.1 = k
    · rw [if_pos h]
      by_cases h2 : k = k2
      · simp [olookup, h2]
      · have h4 : ¬ p.1 = k2 := fun hh => h2 (h.symm.trans hh)
        simp [olookup, h2, h4]
    · rw [if_neg h]
      by_cases h2 : p.1 = k2
      · have h3 : ¬ k = k2 := fun hh => h (h2.trans hh.symm)
        simp [olookup, h2, h3]
      · simp [olookup, h2, ih]

theorem olookup_upsertAll (us : List (Int × α)) : ∀ (m : List (Int × α)) (k : Int),
    olookup (upsertAll m us) k =
      match lastAssoc us k with
      | some v => some v
      | none => olookup m k := by
  induction us with
  | nil => intro m k; simp [upsertAll, lastAssoc]
  | cons p ps ih =>
    intro m k
    rw [upsertAll, ih, lastAssoc]
    cases h : lastAssoc ps k with
    | some v => simp
    | none =>
      by_cases h2 : p.1 = k <;> simp [h2, olookup_upsert]

theorem mem_upsert (m : List (Int × α)) (k : Int) (v : α) (q : Int × α)
    (hq : q ∈ upsert m k v) : q = (k, v) ∨ q ∈ m := by
  induction m with
  | nil => simpa [upsert] using hq
  | cons p rest ih =>
    by_cases h : p.1 = k
    · rw [upsert, if_pos h] at hq
      rcases List.mem_cons.mp hq with rfl | hq
      · exact Or.inl rfl
      · exact Or.inr (List.mem_cons_of_mem p hq)
    · rw [upsert, if_neg h] at hq
      rcases List.mem_cons.mp hq with rfl | hq
      · exact Or.inr (List.mem_cons_self q rest)
      · rcases ih hq with h1 | h1
        · exact Or.inl h1
        · exact Or.inr (List.mem_cons_of_mem p h1)

theorem mem_upsertAll (us : List (Int × α)) : ∀ (m : List (Int × α)) (q : Int × α),
    q ∈ upsertAll m us → q ∈ m ∨ q ∈ us := by
  induction us with
  | nil => intro m q hq; exact Or.inl hq
  | cons p ps ih =>
    intro m q hq
    rcases ih (upsert m p.1 p.2) q hq with h1 | h1
    · rcases mem_upsert m p.1 p.2 q h1 with h2 | h2
      · exact Or.inr (h2 ▸ List.mem_cons_self (p.1, p.2) ps)
      · exact Or.inl h2
    · exact Or.inr (List.mem_cons_of_mem p h1)

theorem olookup_of_mem : ∀ (m : List (Int × α)), (m.map Prod.fst).Nodup →
    ∀ (k : Int) (v : α), (k, v) ∈ m → olookup m k = some v
  | [], _, k, v, hm => by simp at hm
  | p :: rest, hnd, k, v, hm => by
    rcases List.mem_cons.mp hm with h | h
    · rw [olookup, if_pos (congrArg Prod.fst h.symm)]
      exact congrArg some (congrArg Prod.snd h.symm)
    · have hk : p.1 ≠ k := by
        intro he
        have hmem : k ∈ rest.map Prod.fst := List.mem_map.mpr ⟨(k, v), h, rfl⟩
        exact (List.nodup_cons.mp (by simpa using hnd)).1 (he ▸ hmem)
      rw [olookup, if_neg hk]
      exact olookup_of_mem rest (List.nodup_cons.mp (by simpa using hnd)).2 k v h

theorem filter_key_nil (coll : List α) (keyf : α → Int) (k : Int)
    (hk : k ∉ coll.map keyf) : coll.filter (fun v => keyf v == k) = [] := by
  induction coll with
  | nil => rfl
  | cons v coll ih =>
    simp only [List.map_cons, List.mem_cons, not_or] at hk
    have hne : (keyf v == k) = false := by
      simp only [beq_eq_false_iff_ne, ne_eq]
      exact fun hh => hk.1 hh.symm
    simp only [List.filter, hne]
    exact ih hk.2

theorem filter_key_length_one : ∀ (coll : List α) (keyf : α → Int) (k : Int),
    (coll.map keyf).Nodup → k ∈ coll.map keyf →
    (coll.filter fun v => keyf v == k).length = 1
  | [], _, k, _, hk => by simp at hk
  | v :: coll, keyf, k, hnd, hk => by
    rw [List.map_cons, List.nodup_cons] at hnd
    rw [List.map_cons] at hk
    rcases List.mem_cons.mp hk with h | h
    · have hpos : (keyf v == k) = true := by simp [h]
      have hnil : coll.filter (fun v2 => keyf v2 == k) = [] :=
        filter_key_nil coll keyf k (by rw [h]; exact hnd.1)
      simp only [List.filter, hpos, hnil]
      rfl
    · have hne : (keyf v == k) = false := by
        simp only [beq_eq_false_iff_ne, ne_eq]
        exact fun hh => hnd.1 (by rw [hh]; exact h)
      simp only [List.filter, hne]
      exact filter_key_length_one coll keyf k hnd.2 h

/-- What the specification asserts of one deduplicated entity collection
relative to the sequence `us` of upserts performed on it: identifiers in
first-insertion order, exactly one record per occurring identifier, and
each record equal to its identifier's last upsert. -/
def entityAgrees (coll : List α) (keyf : α → Int) (us : List (Int × α)) : Prop :=
  coll.map keyf = firstOccs (us.map Prod.fst) ∧
  (∀ k, k ∈ us.map Prod.fst → (coll.filter fun v => keyf v == k).length = 1) ∧
  (∀ v, v ∈ coll → lastAssoc us (keyf v) = some v)

theorem upsertAll_agrees (us : List (Int × α)) (keyf : α → Int)
    (hkeyed : ∀ p ∈ us, keyf p.2 = p.1) :
    entityAgrees ((upsertAll [] us).map Prod.snd) keyf us := by
  have hkeyed2 : ∀ p ∈ upsertAll ([] : List (Int × α)) us, keyf p.2 = p.1 := by
    intro p hp
    rcases mem_upsertAll us [] p hp with h | h
    · simp at h
    · exact hkeyed p h
  have hfst : (upsertAll ([] : List (Int × α)) us).map Prod.fst
      = firstOccs (us.map Prod.fst) := by
    rw [map_fst_upsertAll]
    simp [firstOccs]
  have hmapkey : ((upsertAll ([] : List (Int × α)) us).map Prod.snd).map keyf
      = (upsertAll ([] : List (Int × α)) us).map Prod.fst := by
    rw [List.map_map]
    exact List.map_congr_left hkeyed2
  have hconj1 : ((upsertAll ([] : List (Int × α)) us).map Prod.snd).map keyf
      = firstOccs (us.map Prod.fst) := hmapkey.trans hfst
  have hndkeys : ((upsertAll ([] : List (Int × α)) us).map Prod.fst).Nodup := by
    rw [hfst]
    exact newKeys_nodup _ _
  refine ⟨hconj1, ?_, ?_⟩
  · intro k hk
    apply filter_key_length_one
    · rw [hconj1]
      exact newKeys_nodup _ _
    · rw [hconj1]
      exact (mem_newKeys _ _ _).mpr ⟨hk, by simp⟩
  · intro v hv
    rcases List.mem_map.mp hv with ⟨p, hp, hpv⟩
    have hkey : keyf v = p.1 := hpv ▸ hkeyed2 p hp
    have hlook : olookup (upsertAll [] us) p.1 = some v := by
      rw [← hpv]
      exact olookup_of_mem _ hndkeys p.1 p.2 (by simpa using hp)
    rw [olookup_upsertAll] at hlook
    rw [hkey]
    cases h : lastAssoc us p.1 with
    | none => rw [h] at hlook; simp [olookup] at hlook
    | some w => rw [h] at hlook; simpa using hlook

theorem upsertAll_append : ∀ (us vs m : List (Int × α)),
    upsertAll m (us ++ vs) = upsertAll (upsertAll m us) vs
  | [], _, _ => rfl
  | p :: us, vs, m => by
    rw [List.cons_append, upsertAll, upsertAll]
    exact upsertAll_append us vs (upsert m p.1 p.2)

theorem procGenres_char (mid : Int) : ∀ (gs : List NamedEntry) (s s2 : TState),
    procGenres mid s gs = .ok s2 ↔
      (gs.all namedComplete = true ∧
       s2 = { s with genres := upsertAll s.genres (genrePairs gs),
                     categorized_as := s.categorized_as ++ catEdges mid gs }) := by
  intro gs
  induction gs with
  | nil =>
    intro s s2
    simp only [procGenres, genrePairs, catEdges, List.map_nil, List.append_nil,
      upsertAll, Except.ok.injEq, List.all_nil, true_and]
    exact eq_comm
  | cons g gs ih =>
    intro s s2
    cases hid : g.id with
    | none => simp [procGenres, hid, namedComplete]
    | some gid =>
      cases hname : g.name with
      | none => simp [procGenres, hid, hname, namedComplete]
      | some nm =>
        rw [show procGenres mid s (g :: gs)
            = procGenres mid
                { s with genres := upsert s.genres gid ⟨gid, nm⟩,
                         categorized_as := s.categorized_as ++ [⟨mid, gid⟩] } gs by
          rw [procGenres, hid, hname]]
        rw [ih]
        simp [namedComplete, hid, hname, genrePairs, catEdges, upsertAll,
          List.append_assoc, and_assoc]

theorem procKeywords_char (mid : Int) : ∀ (ks : List NamedEntry) (s s2 : TState),
    procKeywords mid s ks = .ok s2 ↔
      (ks.all namedComplete = true ∧
       s2 = { s with keywords := upsertAll s.keywords (keywordPairs ks),
                     tagged_with := s.tagged_with ++ tagEdges mid ks }) := by
  intro ks
  induction ks with
  | nil =>
    intro s s2
    simp only [procKeywords, keywordPairs, tagEdges, List.map_nil, List.append_nil,
      upsertAll, Except.ok.injEq, List.all_nil, true_and]
    exact eq_comm
  | cons g gs ih =>
    intro s s2
    cases hid : g.id with
    | none => simp [procKeywords, hid, namedComplete]
    | some gid =>
      cases hname : g.name with
      | none => simp [procKeywords, hid, hname, namedComplete]
      | some nm =>
        rw [show procKeywords mid s (g :: gs)
            = procKeywords mid
                { s with keywords := upsert s.keywords gid ⟨gid, nm⟩,
                         tagged_with := s.tagged_with ++ [⟨mid, gid⟩] } gs by
          rw [procKeywords, hid, hname]]
        rw [ih]
        simp [namedComplete, hid, hname, keywordPairs, tagEdges, upsertAll,
          List.append_assoc, and_assoc]

theorem procCompanies_char (mid : Int) : ∀ (cs : List CompanyEntry) (s s2 : TState),
    procCompanies mid s cs = .ok s2 ↔
      (cs.all companyComplete = true ∧
       s2 = { s with companies := upsertAll s.companies (companyPairs cs),
                     produced := s.produced ++ prodEdges mid cs }) := by
  intro cs
  induction cs with
  | nil =>
    intro s s2
    simp only [procCompanies, companyPairs, prodEdges, List.map_nil, List.append_nil,
      upsertAll, Except.ok.injEq, List.all_nil, true_and]
    exact eq_comm
  | cons c cs ih =>
    intro s s2
    cases hid : c.id with
    | none => simp [procCompanies, hid, companyComplete]
    | some cid =>
      cases hname : c.name with
      | none => simp [procCompanies, hid, hname, companyComplete]
      | some nm =>
        rw [show procCompanies mid s (c :: cs)
            = procCompanies mid
                { s with companies := upsert s.companies cid
                           ⟨cid, nm, c.origin_country.getD ""⟩,
                         produced := s.produced ++ [⟨mid, cid⟩] } cs by
          rw [procCompanies, hid, hname]]
        rw [ih]
        simp [companyComplete, hid, hname, companyPairs, prodEdges, upsertAll,
          List.append_assoc, and_assoc]

theorem procCast_char (mid : Int) : ∀ (l : List CastEntry) (i : Nat) (s s2 : TState),
    procCast mid s i l = .ok s2 ↔
      (l.all castComplete = true ∧
       s2 = { s with persons := upsertAll s.persons (castPairs l),
                     acted_in := s.acted_in ++ castEdges mid i l }) := by
  intro l
  induction l with
  | nil =>
    intro i s s2
    simp only [procCast, castPairs, castEdges, List.map_nil, List.append_nil,
      upsertAll, Except.ok.injEq, List.all_nil, true_and]
    exact eq_comm
  | cons a rest ih =>
    intro i s s2
    cases hid : a.id with
    | none => simp [procCast, hid, castComplete]
    | some pid =>
      cases hname : a.name with
      | none => simp [procCast, hid, hname, castComplete]
      | some nm =>
        cases hch : a.character with
        | none => simp [procCast, hid, hname, hch, castComplete]
        | some ch =>
          rw [show procCast mid s i (a :: rest)
              = procCast mid
                  { s with persons := upsert s.persons pid
                             ⟨pid, nm, a.gender.getD 0, a.profile_path.getD ""⟩,
                           acted_in := s.acted_in ++ [⟨pid, mid, ch, i⟩] } (i + 1) rest by
            rw [procCast, hid, hname, hch]]
          rw [ih]
          simp [castComplete, hid, hname, hch, castPairs, castEdges, upsertAll,
            List.append_assoc, and_assoc]

theorem procCrew_char (mid : Int) : ∀ (l : List CrewEntry) (s s2 : TState),
    procCrew mid s l = .ok s2 ↔
      (l.all crewComplete = true ∧
       s2 = { s with persons := upsertAll s.persons (crewPairs l),
                     directed := s.directed ++ crewEdges mid l }) := by
  intro l
  induction l with
  | nil =>
    intro s s2
    simp only [procCrew, crewPairs, crewEdges, List.filter_nil, List.map_nil,
      List.append_nil, upsertAll, Except.ok.injEq, List.all_nil, true_and]
    exact eq_comm
  | cons c cs ih =>
    intro s s2
    cases hjob : c.job with
    | none => simp [procCrew, hjob, crewComplete]
    | some jb =>
      by_cases hD : jb = "Director"
      · subst hD
        cases hid : c.id with
        | none => simp [procCrew, hjob, hid, crewComplete]
        | some pid =>
          cases hname : c.name with
          | none => simp [procCrew, hjob, hid, hname, crewComplete]
          | some nm =>
            cases hdept : c.department with
            | none => simp [procCrew, hjob, hid, hname, hdept, crewComplete]
            | some dept =>
              rw [show procCrew mid s (c :: cs)
                  = procCrew mid
                      { s with persons := upsert s.persons pid
                                 ⟨pid, nm, c.gender.getD 0, c.profile_path.getD ""⟩,
                               directed := s.directed ++ [⟨pid, mid, "Director", dept⟩] } cs by
                rw [procCrew, hjob]
                simp [hid, hname, hdept]]
              rw [ih]
              simp [crewComplete, hjob, hid, hname, hdept, crewPairs, crewEdges,
                upsertAll, List.append_assoc, and_assoc]
      · rw [show procCrew mid s (c :: cs) = procCrew mid s cs by
          rw [procCrew, hjob]
          simp [hD]]
        rw [ih]
        simp [crewComplete, hjob, hD, crewPairs, crewEdges]

theorem andThen_ok (e : Except KeyError TState) (f : TState → Except KeyError TState)
    (s2 : TState) : andThen e f = .ok s2 ↔ ∃ st, e = .ok st ∧ f st = .ok s2 := by
  cases e <;> simp [andThen]

theorem processRow_char (s s2 : TState) (r : Row) :
    processRow s r = .ok s2 ↔ (rowComplete r = true ∧ s2 = applyRow s r) := by
  simp only [processRow, andThen_ok, procGenres_char, procKeywords_char,
    procCompanies_char, procCast_char, procCrew_char]
  constructor
  · rintro ⟨stA, ⟨hg, rfl⟩, stB, ⟨hk, rfl⟩, stC, ⟨hc, rfl⟩, stD, ⟨hcast, rfl⟩, hcrew, rfl⟩
    refine ⟨?_, ?_⟩
    · simp [rowComplete, hg, hk, hc, hcast, hcrew]
    · simp [applyRow, personPairs, upsertAll_append, rowActedIn, rowDirected,
        List.append_assoc]
  · rintro ⟨hrc, rfl⟩
    simp only [rowComplete, Bool.and_eq_true] at hrc
    refine ⟨_, ⟨hrc.1.1.1.1, rfl⟩, _, ⟨hrc.1.1.1.2, rfl⟩, _, ⟨hrc.1.1.2, rfl⟩,
      _, ⟨hrc.1.2, rfl⟩, hrc.2, ?_⟩
    simp [applyRow, personPairs, upsertAll_append, rowActedIn, rowDirected,
      List.append_assoc]

theorem runRows_char : ∀ (rows : List Row) (s s2 : TState),
    runRows s rows = .ok s2 ↔
      (rows.all rowComplete = true ∧ s2 = rows.foldl applyRow s)
  | [], s, s2 => by
    simp only [runRows, Except.ok.injEq, List.all_nil, List.foldl_nil, true_and]
    exact eq_comm
  | r :: rs, s, s2 => by
    rw [runRows]
    cases h : processRow s r with
    | error e =>
      constructor
      · intro hh; simp at hh
      · rintro ⟨hall, -⟩
        simp only [List.all_cons, Bool.and_eq_true] at hall
        have hok := (processRow_char s _ r).mpr ⟨hall.1, rfl⟩
        rw [h] at hok
        simp at hok
    | ok s3 =>
      rcases (processRow_char s s3 r).mp h with ⟨hrc, rfl⟩
      rw [runRows_char rs (applyRow s r) s2]
      simp [List.all_cons, hrc]

theorem transform_data_char (rows : List Row) (out : Output) :
    transform_data rows = .ok out ↔
      (rows.all rowComplete = true ∧
       out = outputOf (rows.foldl applyRow initState)) := by
  rw [transform_data]
  cases h : runRows initState rows with
  | error e =>
    constructor
    · intro hh; simp at hh
    · rintro ⟨hall, -⟩
      have hok := (runRows_char rows initState _).mpr ⟨hall, rfl⟩
      rw [h] at hok
      simp at hok
  | ok s =>
    rcases (runRows_char rows initState s).mp h with ⟨hall, rfl⟩
    simp only [Except.ok.injEq, hall, true_and]
    exact eq_comm

theorem foldl_movies : ∀ (rows : List Row) (s : TState),
    (rows.foldl applyRow s).movies = s.movies ++ rows.map movieOf
  | [], s => by simp
  | r :: rs, s => by
    rw [List.foldl_cons, foldl_movies rs, List.map_cons]
    simp [applyRow]

theorem foldl_persons : ∀ (rows : List Row) (s : TState),
    (rows.foldl applyRow s).persons = upsertAll s.persons (collectAll personPairs rows)
  | [], s => by simp [collectAll, upsertAll]
  | r :: rs, s => by
    rw [List.foldl_cons, foldl_persons rs, collectAll, upsertAll_append]
    simp [applyRow]

theorem foldl_genres : ∀ (rows : List Row) (s : TState),
    (rows.foldl applyRow s).genres
      = upsertAll s.genres (collectAll (fun r => genrePairs r.genres) rows)
  | [], s => by simp [collectAll, upsertAll]
  | r :: rs, s => by
    rw [List.foldl_cons, foldl_genres rs, collectAll, upsertAll_append]
    simp [applyRow]

theorem foldl_keywords : ∀ (rows : List Row) (s : TState),
    (rows.foldl applyRow s).keywords
      = upsertAll s.keywords (collectAll (fun r => keywordPairs r.keywords) rows)
  | [], s => by simp [collectAll, upsertAll]
  | r :: rs, s => by
    rw [List.foldl_cons, foldl_keywords rs, collectAll, upsertAll_append]
    simp [applyRow]

theorem foldl_companies : ∀ (rows : List Row) (s : TState),
    (rows.foldl applyRow s).companies
      = upsertAll s.companies (collectAll (fun r => companyPairs r.production_companies) rows)
  | [], s => by simp [collectAll, upsertAll]
  | r :: rs, s => by
    rw [List.foldl_cons, foldl_companies rs, collectAll, upsertAll_append]
    simp [applyRow]

theorem foldl_acted : ∀ (rows : List Row) (s : TState),
    (rows.foldl applyRow s).acted_in = s.acted_in ++ collectAll rowActedIn rows
  | [], s => by simp [collectAll]
  | r :: rs, s => by
    rw [List.foldl_cons, foldl_acted rs, collectAll]
    simp [applyRow]

theorem foldl_directed : ∀ (rows : List Row) (s : TState),
    (rows.foldl applyRow s).directed = s.directed ++ collectAll rowDirected rows
  | [], s => by simp [collectAll]
  | r :: rs, s => by
    rw [List.foldl_cons, foldl_directed rs, collectAll]
    simp [applyRow]

theorem foldl_produced : ∀ (rows : List Row) (s : TState),
    (rows.foldl applyRow s).produced
      = s.produced ++ collectAll (fun r => prodEdges r.id r.production_companies) rows
  | [], s => by simp [collectAll]
  | r :: rs, s => by
    rw [List.foldl_cons, foldl_produced rs, collectAll]
    simp [applyRow]

theorem foldl_categorized : ∀ (rows : List Row) (s : TState),
    (rows.foldl applyRow s).categorized_as
      = s.categorized_as ++ collectAll (fun r => catEdges r.id r.genres) rows
  | [], s => by simp [collectAll]
  | r :: rs, s => by
    rw [List.foldl_cons, foldl_categorized rs, collectAll]
    simp [applyRow]

theorem foldl_tagged : ∀ (rows : List Row) (s : TState),
    (rows.foldl applyRow s).tagged_with
      = s.tagged_with ++ collectAll (fun r => tagEdges r.id r.keywords) rows
  | [], s => by simp [collectAll]
  | r :: rs, s => by
    rw [List.foldl_cons, foldl_tagged rs, collectAll]
    simp [applyRow]

theorem castEdges_length (mid : Int) : ∀ (l : List CastEntry) (i : Nat),
    (castEdges mid i l).length = l.length
  | [], _ => rfl
  | a :: rest, i => by
    simp [castEdges, castEdges_length mid rest (i + 1)]

theorem castEdges_orders (mid : Int) : ∀ (l : List CastEntry) (i : Nat),
    (castEdges mid i l).map ActedIn.order = List.range' i l.length
  | [], i => by simp [castEdges]
  | a :: rest, i => by
    rw [castEdges, List.map_cons, castEdges_orders mid rest (i + 1), List.length_cons]
    rfl

theorem castEdges_movie (mid : Int) : ∀ (l : List CastEntry) (i : Nat) (e : ActedIn),
    e ∈ castEdges mid i l → e.movie_id = mid
  | [], _, e, h => by simp [castEdges] at h
  | a :: rest, i, e, h => by
    rw [castEdges] at h
    rcases List.mem_cons.mp h with rfl | h
    · rfl
    · exact castEdges_movie mid rest (i + 1) e h

theorem rowActedIn_filter_self (r : Row) :
    (rowActedIn r).filter (fun e => e.movie_id == r.id) = rowActedIn r := by
  apply List.filter_eq_self.mpr
  intro e he
  simp [castEdges_movie r.id (r.cast.take 10) 0 e he]

theorem rowActedIn_filter_nil (mid : Int) (r : Row) (hne : r.id ≠ mid) :
    (rowActedIn r).filter (fun e => e.movie_id == mid) = [] := by
  rw [List.filter_eq_nil_iff]
  intro e he
  simp [castEdges_movie r.id (r.cast.take 10) 0 e he, hne]

theorem collectAll_acted_filter_nil (mid : Int) : ∀ (rows : List Row),
    mid ∉ rows.map Row.id →
    (collectAll rowActedIn rows).filter (fun e => e.movie_id == mid) = []
  | [], _ => rfl
  | r :: rs, h => by
    simp only [List.map_cons, List.mem_cons, not_or] at h
    rw [collectAll, List.filter_append,
      rowActedIn_filter_nil mid r (fun he => h.1 he.symm),
      collectAll_acted_filter_nil mid rs h.2, List.append_nil]

theorem collectAll_acted_filter : ∀ (rows : List Row) (r : Row),
    (rows.map Row.id).Nodup → r ∈ rows →
    (collectAll rowActedIn rows).filter (fun e => e.movie_id == r.id) = rowActedIn r
  | [], r, _, hr => by simp at hr
  | r0 :: rs, r, hnd, hr => by
    rw [List.map_cons, List.nodup_cons] at hnd
    rw [collectAll, List.filter_append]
    rcases List.mem_cons.mp hr with rfl | hr
    · rw [rowActedIn_filter_self, collectAll_acted_filter_nil r.id rs hnd.1,
        List.append_nil]
    · have hne : r0.id ≠ r.id := fun he => hnd.1 (he ▸ List.mem_map_of_mem Row.id hr)
      rw [rowActedIn_filter_nil r.id r0 hne, List.nil_append]
      exact collectAll_acted_filter rs r hnd.2 hr

theorem collectAll_congr (f g : Row → List α) (hfg : ∀ r, f r = g r) :
    ∀ rows : List Row, collectAll f rows = collectAll g rows
  | [] => rfl
  | r :: rs => by
    rw [collectAll, collectAll, hfg r, collectAll_congr f g hfg rs]

theorem keyed_collectAll (f : Row → List (Int × α)) (keyf : α → Int)
    (hf : ∀ r : Row, ∀ p ∈ f r, keyf p.2 = p.1) :
    ∀ (rows : List Row), ∀ p ∈ collectAll f rows, keyf p.2 = p.1
  | [], p, hp => by simp [collectAll] at hp
  | r :: rs, p, hp => by
    rw [collectAll] at hp
    rcases List.mem_append.mp hp with h | h
    · exact hf r p h
    · exact keyed_collectAll f keyf hf rs p h

theorem keyed_genrePairs (gs : List NamedEntry) :
    ∀ p ∈ genrePairs gs, Genre.id p.2 = p.1 := by
  intro p hp
  rcases List.mem_map.mp hp with ⟨g, -, rfl⟩
  rfl

theorem keyed_keywordPairs (ks : List NamedEntry) :
    ∀ p ∈ keywordPairs ks, Keyword.id p.2 = p.1 := by
  intro p hp
  rcases List.mem_map.mp hp with ⟨g, -, rfl⟩
  rfl

theorem keyed_companyPairs (cs : List CompanyEntry) :
    ∀ p ∈ companyPairs cs, Company.id p.2 = p.1 := by
  intro p hp
  rcases List.mem_map.mp hp with ⟨c, -, rfl⟩
  rfl

theorem keyed_personPairs (r : Row) :
    ∀ p ∈ personPairs r, Person.id p.2 = p.1 := by
  intro p hp
  rcases List.mem_append.mp hp with h | h
  · rcases List.mem_map.mp h with ⟨a, -, rfl⟩
    rfl
  · rcases List.mem_map.mp h with ⟨c, -, rfl⟩
    rfl

theorem mem_fst_collectAll (f : Row → List (Int × α)) :
    ∀ (rows : List Row) (r : Row), r ∈ rows →
    ∀ k, k ∈ (f r).map Prod.fst → k ∈ (collectAll f rows).map Prod.fst
  | [], r, hr, _, _ => by simp at hr
  | r0 :: rs, r, hr, k, hk => by
    rw [collectAll, List.map_append, List.mem_append]
    rcases List.mem_cons.mp hr with rfl | hr
    · exact Or.inl hk
    · exact Or.inr (mem_fst_collectAll f rs r hr k hk)

theorem transform_persons_agrees (rows : List Row) (out : Output)
    (h : transform_data rows = .ok out) :
    entityAgrees out.persons Person.id (collectAll personPairs rows) := by
  rcases (transform_data_char rows out).mp h with ⟨-, rfl⟩
  have hagrees := upsertAll_agrees (collectAll personPairs rows) Person.id
    (keyed_collectAll personPairs Person.id keyed_personPairs rows)
  simpa [outputOf, foldl_persons, initState] using hagrees

/-- C1: for every input row sequence that transforms successfully, each
entity identifier (person, genre, keyword, company) occurring in the
processed entries has exactly one output record, whose attribute values are
those of the identifier's last occurrence in processing order, and each
output collection lists identifiers in first-insertion order. -/
theorem claim1_entity_dedup (rows : List Row) (out : Output)
    (h : transform_data rows = .ok out) :
    entityAgrees out.persons Person.id (collectAll personPairs rows) ∧
    entityAgrees out.genres Genre.id (collectAll (fun r => genrePairs r.genres) rows) ∧
    entityAgrees out.keywords Keyword.id (collectAll (fun r => keywordPairs r.keywords) rows) ∧
    entityAgrees out.companies Company.id
      (collectAll (fun r => companyPairs r.production_companies) rows) := by
  refine ⟨transform_persons_agrees rows out h, ?_, ?_, ?_⟩
  all_goals rcases (transform_data_char rows out).mp h with ⟨-, rfl⟩
  · have hagrees := upsertAll_agrees (collectAll (fun r => genrePairs r.genres) rows)
      Genre.id (keyed_collectAll _ Genre.id (fun r => keyed_genrePairs r.genres) rows)
    simpa [outputOf, foldl_genres, initState] using hagrees
  · have hagrees := upsertAll_agrees (collectAll (fun r => keywordPairs r.keywords) rows)
      Keyword.id (keyed_collectAll _ Keyword.id (fun r => keyed_keywordPairs r.keywords) rows)
    simpa [outputOf, foldl_keywords, initState] using hagrees
  · have hagrees := upsertAll_agrees
      (collectAll (fun r => companyPairs r.production_companies) rows)
      Company.id (keyed_collectAll _ Company.id
        (fun r => keyed_companyPairs r.production_companies) rows)
    simpa [outputOf, foldl_companies, initState] using hagrees

/-- C2: for every row of a successfully transformed input whose movie ids
are pairwise distinct, the ACTED_IN edges of that row's movie are exactly
the edges built from the first ten cast entries in their existing order;
there are min(10, number of cast entries) of them and their `order` fields
are the contiguous zero-based sequence with no gaps or repeats. -/
theorem claim2_acted_in_per_movie (rows : List Row) (out : Output) (r : Row)
    (h : transform_data rows = .ok out) (hnd : (rows.map Row.id).Nodup)
    (hr : r ∈ rows) :
    out.acted_in.filter (fun e => e.movie_id == r.id) = rowActedIn r ∧
    (out.acted_in.filter (fun e => e.movie_id == r.id)).length = min 10 r.cast.length ∧
    (out.acted_in.filter (fun e => e.movie_id == r.id)).map ActedIn.order
      = List.range (min 10 r.cast.length) := by
  rcases (transform_data_char rows out).mp h with ⟨-, rfl⟩
  have hacted : (outputOf (rows.foldl applyRow initState)).acted_in
      = collectAll rowActedIn rows := by
    simp [outputOf, foldl_acted, initState]
  rw [hacted, collectAll_acted_filter rows r hnd hr]
  refine ⟨rfl, ?_, ?_⟩
  · rw [rowActedIn, castEdges_length, List.length_take]
  · rw [rowActedIn, castEdges_orders, List.length_take, List.range_eq_range']

/-- C3: for every successfully transformed input, the DIRECTED edges are
exactly one edge (carrying job and department) per crew entry whose job
equals the literal string "Director" under case-sensitive comparison, over
all crew entries of every row with no truncation; any other job value, such
as "Co-Director" or "director", contributes no edge. -/
theorem claim3_directed_exact (rows : List Row) (out : Output)
    (h : transform_data rows = .ok out) :
    out.directed = collectAll (fun r =>
      (r.crew.filter fun c => c.job == some "Director").map fun c =>
        ⟨c.id.getD 0, r.id, c.job.getD "", c.department.getD ""⟩) rows := by
  rcases (transform_data_char rows out).mp h with ⟨-, rfl⟩
  have hd : (outputOf (rows.foldl applyRow initState)).directed
      = collectAll rowDirected rows := by
    simp [outputOf, foldl_directed, initState]
  rw [hd]
  exact collectAll_congr _ _ (fun r => rfl) rows

/-- C5 (amended): the transform succeeds if and only if every nested entry
it processes carries its expected keys; a missing expected key makes the
whole transform fail with a KeyError, producing no output. -/
theorem claim5_fail_fast (rows : List Row) :
    (∃ out, transform_data rows = .ok out) ↔ rows.all rowComplete = true := by
  constructor
  · rintro ⟨out, h⟩
    exact ((transform_data_char rows out).mp h).1
  · intro hall
    exact ⟨_, (transform_data_char rows _).mpr ⟨hall, rfl⟩⟩

/-- C9: every successfully transformed input yields exactly one Movie
record per row, carrying the nine scalar attributes, in row order; the
number of Movie records equals the number of input rows. -/
theorem claim9_movies_per_row (rows : List Row) (out : Output)
    (h : transform_data rows = .ok out) :
    out.movies = rows.map movieOf ∧ out.movies.length = rows.length := by
  rcases (transform_data_char rows out).mp h with ⟨-, rfl⟩
  have hm : (outputOf (rows.foldl applyRow initState)).movies = rows.map movieOf := by
    simp [outputOf, foldl_movies, initState]
  exact ⟨hm, by rw [hm, List.length_map]⟩

/-- C10: the transform shares one Person collection between cast and crew
processing; whenever an identifier occurs both among a row's first-ten cast
entries and among some row's Director crew entries, the output has exactly
one Person record for it, equal to the identifier's last processed
occurrence (within one row, crew entries are processed after cast entries,
as recorded by `personPairs`). -/
theorem claim10_shared_person_collection (rows : List Row) (out : Output)
    (r1 r2 : Row) (k : Int) (h : transform_data rows = .ok out)
    (hr1 : r1 ∈ rows) (hr2 : r2 ∈ rows)
    (hcast : k ∈ (castPairs (r1.cast.take 10)).map Prod.fst)
    (hcrew : k ∈ (crewPairs r2.crew).map Prod.fst) :
    (out.persons.filter fun p => p.id == k).length = 1 ∧
    ∀ p ∈ out.persons, p.id = k →
      lastAssoc (collectAll personPairs rows) k = some p := by
  have hagrees := transform_persons_agrees rows out h
  have hkmem : k ∈ (collectAll personPairs rows).map Prod.fst := by
    apply mem_fst_collectAll personPairs rows r1 hr1 k
    rw [personPairs, List.map_append, List.mem_append]
    exact Or.inl hcast
  refine ⟨hagrees.2.1 k hkmem, ?_⟩
  intro p hp hpk
  rw [← hpk]
  exact hagrees.2.2 p hp

/-- Single-quote character (ASCII 39) as a string. -/
def squote : String := String.singleton (Char.ofNat 39)

/-- Double-quote character (ASCII 34) as a string. -/
def dquote : String := String.singleton (Char.ofNat 34)

/-- The suffix checked by the fourth parse attempt: comma, closing square
bracket, closing curly bracket. -/
def commaBracketEnd : String := ",]\x7d"

/-- Replacement for `commaBracketEnd`: the same without the comma. -/
def bracketEnd : String := "]\x7d"

/-- The alternative suffix checked by the fourth parse attempt: comma then
closing curly bracket. -/
def commaBraceEnd : String := ",\x7d"

/-- Replacement for `commaBraceEnd`: the closing curly bracket alone. -/
def braceEnd : String := "\x7d"

/-- A cell of an embedded-collection column as `safe_json_loads` receives
it: missing (`pd.isna`), already parsed to a list value, or text.  The
type `α` stands for parsed values; the parsers are abstracted as
`String → Option α` (a documented parse failure is `none`). -/
inductive Cell (α : Type) where
  | nan : Cell α
  | lst : α → Cell α
  | txt : String → Cell α

/-- safe_json_loads (process.py lines 33-72): NaN yields the empty list,
an already-parsed list is returned unchanged, and text goes through four
parse attempts — strict JSON (`jl`), JSON after replacing every single
quote by a double quote, Python literal parsing (`le`), and, when the text
ends in a trailing comma before its closing brackets, JSON after removing
those commas — falling back to the empty list when everything fails. -/
def safe_json_loads (jl le : String → Option α) (emptyList : α) : Cell α → α
  | .nan => emptyList
  | .lst v => v
  | .txt x =>
    match jl x with
    | some v => v
    | none =>
      match jl (x.replace squote dquote) with
      | some v => v
      | none =>
        match le x with
        | some v => v
        | none =>
          if x.endsWith commaBracketEnd then
            match jl (x.replace commaBracketEnd bracketEnd) with
            | some v => v
            | none => emptyList
          else if x.endsWith commaBraceEnd then
            match jl (x.replace commaBraceEnd braceEnd) with
            | some v => v
            | none => emptyList
          else emptyList

/-- The trailing-comma-repaired parse attempt viewed as one optional
parser, shared by the source chain and the spec-side attempt list. -/
def trailingCommaRepair (jl : String → Option α) (x : String) : Option α :=
  if x.endsWith commaBracketEnd then jl (x.replace commaBracketEnd bracketEnd)
  else if x.endsWith commaBraceEnd then jl (x.replace commaBraceEnd braceEnd)
  else none

/-- Spec-side rendering of the parser chain (spec section 4.1): the ordered
list of the four parse attempts for one text cell. -/
def specParseAttempts (jl le : String → Option α) (x : String) : List (Option α) :=
  [jl x, jl (x.replace squote dquote), le x, trailingCommaRepair jl x]

/-- Spec-side rendering of first-success-wins with a fallback default. -/
def firstSuccess (d : α) : List (Option α) → α
  | [] => d
  | some v :: _ => v
  | none :: rest => firstSuccess d rest

/-- C4: for every text cell, the parser tries strict JSON, single-quote
normalized JSON, Python-literal parsing and trailing-comma-repaired JSON in
that order; the first success is returned and exhaustion yields the empty
list, so the chain is total and never propagates a parse failure. -/
theorem claim4_parse_chain (α : Type) (jl le : String → Option α) (emptyList : α)
    (x : String) :
    safe_json_loads jl le emptyList (Cell.txt x)
      = firstSuccess emptyList (specParseAttempts jl le x) := by
  rw [safe_json_loads, specParseAttempts]
  cases jl x with
  | some v => rfl
  | none =>
    cases jl (x.replace squote dquote) with
    | some v => rfl
    | none =>
      cases le x with
      | some v => rfl
      | none =>
        rw [firstSuccess, firstSuccess, firstSuccess, trailingCommaRepair]
        by_cases h1 : x.endsWith commaBracketEnd
        · rw [if_pos h1, if_pos h1]
          cases jl (x.replace commaBracketEnd bracketEnd) <;> rfl
        · rw [if_neg h1, if_neg h1]
          by_cases h2 : x.endsWith commaBraceEnd
          · rw [if_pos h2, if_pos h2]
            cases jl (x.replace commaBraceEnd braceEnd) <;> rfl
          · rw [if_neg h2, if_neg h2]
            rfl

/-- Python value used by extract_data as the synthesized default content of
a missing required column. -/
inductive CellDefault where
  | strv : String → CellDefault
  | intv : Int → CellDefault
  | nonev : CellDefault
  deriving Repr, DecidableEq

/-- The nine required scalar columns (process.py lines 185-186). -/
def required_columns : List String :=
  ["id", "title", "release_date", "budget", "revenue",
   "popularity", "vote_average", "vote_count", "overview"]

/-- Default assigned to a missing required column by the if/elif chain of
extract_data (process.py lines 192-201). -/
def defaultFor (col : String) : CellDefault :=
  if col = "title" then .strv "Unknown Title"
  else if ["release_date", "overview"].contains col then .strv ""
  else if ["budget", "revenue", "popularity", "vote_average", "vote_count"].contains col
    then .intv 0
  else .nonev

/-- Missing-column synthesis of extract_data (process.py lines 184-201):
from the joined table's column list, the extended column list and the
synthesized (column, default) pairs in required-column order. -/
def addMissingColumns (cols : List String) : List String × List (String × CellDefault) :=
  let missing := required_columns.filter fun c => !(cols.contains c)
  (cols ++ missing, missing.map fun c => (c, defaultFor c))

/-- C6 (amended): every required scalar column missing from the joined
table is synthesized, so all nine are present afterwards; the defaults are
"Unknown Title" for title, the empty string for release_date and overview,
zero for the five numeric columns, and None for id. -/
theorem claim6_missing_column_defaults (cols : List String) :
    (∀ c ∈ required_columns, c ∈ (addMissingColumns cols).1) ∧
    (∀ c ∈ required_columns, c ∉ cols → (c, defaultFor c) ∈ (addMissingColumns cols).2) ∧
    defaultFor "title" = .strv "Unknown Title" ∧
    defaultFor "release_date" = .strv "" ∧ defaultFor "overview" = .strv "" ∧
    defaultFor "budget" = .intv 0 ∧ defaultFor "revenue" = .intv 0 ∧
    defaultFor "popularity" = .intv 0 ∧ defaultFor "vote_average" = .intv 0 ∧
    defaultFor "vote_count" = .intv 0 ∧ defaultFor "id" = .nonev := by
  refine ⟨?_, ?_, by decide, by decide, by decide, by decide, by decide,
    by decide, by decide, by decide, by decide⟩
  · intro c hc
    rw [addMissingColumns]
    by_cases h : c ∈ cols
    · exact List.mem_append.mpr (Or.inl h)
    · refine List.mem_append.mpr (Or.inr ?_)
      exact List.mem_filter.mpr ⟨hc, by simp [h]⟩
  · intro c hc h
    rw [addMissingColumns]
    exact List.mem_map.mpr ⟨c, List.mem_filter.mpr ⟨hc, by simp [h]⟩, rfl⟩

/-- C6 counterexample: in a joined table lacking only the text column
`title`, extract_data synthesizes the default "Unknown Title", not the
empty string the claim requires for text fields. -/
theorem claim6_counterexample :
    (addMissingColumns ["id", "release_date", "budget", "revenue", "popularity",
        "vote_average", "vote_count", "overview"]).2
      = [("title", CellDefault.strv "Unknown Title")] ∧
    CellDefault.strv "Unknown Title" ≠ CellDefault.strv "" := by
  exact ⟨by decide, by decide⟩

/-- One output file's content at the level this spec observes: the header
row (absent when pandas received an empty record list) and the data rows. -/
structure Csv where
  header : Option (List String)
  rows : List (List String)
  deriving Repr, DecidableEq

/-- pandas `DataFrame(records).to_csv(..., index=False)` as observed here:
a non-empty record list yields a header row holding the first record's keys
followed by one row of values per record; `DataFrame([])` has no columns,
so the file gets no header row at all. -/
def dataFrameCsv (records : List (List (String × String))) : Csv :=
  match records with
  | [] => ⟨none, []⟩
  | r0 :: _ => ⟨some (r0.map Prod.fst), records.map fun fields => fields.map Prod.snd⟩

/-- Movie record as the ordered key-value list its Python dict holds. -/
def moviePairsCsv (m : Movie) : List (String × String) :=
  [("id", toString m.id), ("title", m.title), ("release_date", m.release_date),
   ("budget", toString m.budget), ("revenue", toString m.revenue),
   ("popularity", toString m.popularity), ("vote_average", toString m.vote_average),
   ("vote_count", toString m.vote_count), ("overview", m.overview)]

/-- Person record as its ordered key-value list. -/
def personPairsCsv (p : Person) : List (String × String) :=
  [("id", toString p.id), ("name", p.name), ("gender", toString p.gender),
   ("profile_path", p.profile_path)]

/-- Genre record as its ordered key-value list. -/
def genrePairsCsv (g : Genre) : List (String × String) :=
  [("id", toString g.id), ("name", g.name)]

/-- Keyword record as its ordered key-value list. -/
def keywordPairsCsv (k : Keyword) : List (String × String) :=
  [("id", toString k.id), ("name", k.name)]

/-- Company record as its ordered key-value list. -/
def companyPairsCsv (c : Company) : List (String × String) :=
  [("id", toString c.id), ("name", c.name), ("origin_country", c.origin_country)]

/-- ACTED_IN record as its ordered key-value list. -/
def actedPairsCsv (e : ActedIn) : List (String × String) :=
  [("person_id", toString e.person_id), ("movie_id", toString e.movie_id),
   ("character", e.character), ("order", toString e.order)]

/-- DIRECTED record as its ordered key-value list. -/
def directedPairsCsv (e : Directed) : List (String × String) :=
  [("person_id", toString e.person_id), ("movie_id", toString e.movie_id),
   ("job", e.job), ("department", e.department)]

/-- PRODUCED record as its ordered key-value list. -/
def producedPairsCsv (e : Produced) : List (String × String) :=
  [("movie_id", toString e.movie_id), ("company_id", toString e.company_id)]

/-- CATEGORIZED_AS record as its ordered key-value list. -/
def categorizedPairsCsv (e : CategorizedAs) : List (String × String) :=
  [("movie_id", toString e.movie_id), ("genre_id", toString e.genre_id)]

/-- TAGGED_WITH record as its ordered key-value list. -/
def taggedPairsCsv (e : TaggedWith) : List (String × String) :=
  [("movie_id", toString e.movie_id), ("keyword_id", toString e.keyword_id)]

/-- load_data (process.py lines 331-356): the ten files written, in the
source's write order, each unconditionally. -/
def load_data (d : Output) : List (String × Csv) :=
  [("movies.csv", dataFrameCsv (d.movies.map moviePairsCsv)),
   ("persons.csv", dataFrameCsv (d.persons.map personPairsCsv)),
   ("genres.csv", dataFrameCsv (d.genres.map genrePairsCsv)),
   ("keywords.csv", dataFrameCsv (d.keywords.map keywordPairsCsv)),
   ("companies.csv", dataFrameCsv (d.companies.map companyPairsCsv)),
   ("acted_in.csv", dataFrameCsv (d.acted_in.map actedPairsCsv)),
   ("directed.csv", dataFrameCsv (d.directed.map directedPairsCsv)),
   ("produced.csv", dataFrameCsv (d.produced.map producedPairsCsv)),
   ("categorized_as.csv", dataFrameCsv (d.categorized_as.map categorizedPairsCsv)),
   ("tagged_with.csv", dataFrameCsv (d.tagged_with.map taggedPairsCsv))]

theorem dataFrameCsv_header (f : β → List (String × String)) (ks : List String)
    (hf : ∀ b, (f b).map Prod.fst = ks) (l : List β) :
    (dataFrameCsv (l.map f)).header = if l.isEmpty then none else some ks := by
  cases l with
  | nil => rfl
  | cons b bs => simp [dataFrameCsv, hf b]

/-- C7 (amended): the Writer emits all ten files unconditionally, in fixed
order; a non-empty collection's file carries a header row in the
attribute-declaration order, while an empty collection's file carries no
header row at all (pandas writes an empty DataFrame without columns). -/
theorem claim7_writer_files (d : Output) :
    (load_data d).map Prod.fst
      = ["movies.csv", "persons.csv", "genres.csv", "keywords.csv", "companies.csv",
         "acted_in.csv", "directed.csv", "produced.csv", "categorized_as.csv",
         "tagged_with.csv"] ∧
    (dataFrameCsv (d.movies.map moviePairsCsv)).header
      = (if d.movies.isEmpty then none else some ["id", "title", "release_date",
          "budget", "revenue", "popularity", "vote_average", "vote_count", "overview"]) ∧
    (dataFrameCsv (d.persons.map personPairsCsv)).header
      = (if d.persons.isEmpty then none
         else some ["id", "name", "gender", "profile_path"]) ∧
    (dataFrameCsv (d.genres.map genrePairsCsv)).header
      = (if d.genres.isEmpty then none else some ["id", "name"]) ∧
    (dataFrameCsv (d.keywords.map keywordPairsCsv)).header
      = (if d.keywords.isEmpty then none else some ["id", "name"]) ∧
    (dataFrameCsv (d.companies.map companyPairsCsv)).header
      = (if d.companies.isEmpty then none else some ["id", "name", "origin_country"]) ∧
    (dataFrameCsv (d.acted_in.map actedPairsCsv)).header
      = (if d.acted_in.isEmpty then none
         else some ["person_id", "movie_id", "character", "order"]) ∧
    (dataFrameCsv (d.directed.map directedPairsCsv)).header
      = (if d.directed.isEmpty then none
         else some ["person_id", "movie_id", "job", "department"]) ∧
    (dataFrameCsv (d.produced.map producedPairsCsv)).header
      = (if d.produced.isEmpty then none else some ["movie_id", "company_id"]) ∧
    (dataFrameCsv (d.categorized_as.map categorizedPairsCsv)).header
      = (if d.categorized_as.isEmpty then none else some ["movie_id", "genre_id"]) ∧
    (dataFrameCsv (d.tagged_with.map taggedPairsCsv)).header
      = (if d.tagged_with.isEmpty then none else some ["movie_id", "keyword_id"]) := by
  exact ⟨rfl,
    dataFrameCsv_header moviePairsCsv _ (fun b => rfl) d.movies,
    dataFrameCsv_header personPairsCsv _ (fun b => rfl) d.persons,
    dataFrameCsv_header genrePairsCsv _ (fun b => rfl) d.genres,
    dataFrameCsv_header keywordPairsCsv _ (fun b => rfl) d.keywords,
    dataFrameCsv_header companyPairsCsv _ (fun b => rfl) d.companies,
    dataFrameCsv_header actedPairsCsv _ (fun b => rfl) d.acted_in,
    dataFrameCsv_header directedPairsCsv _ (fun b => rfl) d.directed,
    dataFrameCsv_header producedPairsCsv _ (fun b => rfl) d.produced,
    dataFrameCsv_header categorizedPairsCsv _ (fun b => rfl) d.categorized_as,
    dataFrameCsv_header taggedPairsCsv _ (fun b => rfl) d.tagged_with⟩

/-- Transformed dataset with every collection empty (the transform of an
empty row sequence). -/
def emptyOutput : Output := ⟨[], [], [], [], [], [], [], [], [], []⟩

/-- C7 counterexample: with an empty persons collection the persons file
has no header row, contradicting the claim's header-only file whose header
matches the attribute-declaration order. -/
theorem claim7_counterexample :
    List.lookup "persons.csv" (load_data emptyOutput) = some ⟨none, []⟩ ∧
    (Csv.mk none []).header ≠ some ["id", "name", "gender", "profile_path"] := by
  exact ⟨by decide, by decide⟩

/-- Python ValueError; extract_data raises it when no join key is found
(process.py line 142). -/
structure ValueError where
  msg : String
  deriving Repr, DecidableEq

/-- Message of the ValueError raised by extract_data (process.py line 142). -/
def creditsKeyErrMsg : String :=
  "Could not find " ++ squote ++ "id" ++ squote ++ " or " ++ squote ++ "movie_id"
    ++ squote ++ " column in credits file"

/-- Join-key resolution of extract_data (process.py lines 134-147): when
`movie_id` is among the credits columns it is chosen and renamed to `id`
(pandas rename maps every matching label); otherwise an existing `id` is
used unchanged; otherwise a ValueError is raised. -/
def resolve_credits_id (cols : List String) : Except ValueError (List String) :=
  if cols.contains "movie_id" then
    .ok (cols.map fun c => if c = "movie_id" then "id" else c)
  else if cols.contains "id" then .ok cols
  else .error ⟨creditsKeyErrMsg⟩

/-- C8: a credits source with neither `id` nor `movie_id` fails with the
schema error; with `movie_id` present the column is renamed to `id` before
the join; with `id` present (and no `movie_id`) the columns are used
unchanged. -/
theorem claim8_credits_key (cols : List String) :
    ("movie_id" ∈ cols → resolve_credits_id cols
        = .ok (cols.map fun c => if c = "movie_id" then "id" else c)) ∧
    ("movie_id" ∉ cols → "id" ∈ cols → resolve_credits_id cols = .ok cols) ∧
    ("movie_id" ∉ cols → "id" ∉ cols →
      resolve_credits_id cols = .error ⟨creditsKeyErrMsg⟩) := by
  refine ⟨?_, ?_, ?_⟩
  · intro h
    rw [resolve_credits_id, if_pos (by simpa using h)]
  · intro h1 h2
    rw [resolve_credits_id, if_neg (by simpa using h1), if_pos (by simpa using h2)]
  · intro h1 h2
    rw [resolve_credits_id, if_neg (by simpa using h1), if_neg (by simpa using h2)]

/-- Sample genre entry. -/
def gAction : NamedEntry := ⟨some 1, some "Action"⟩

/-- Sample keyword entry. -/
def kHero : NamedEntry := ⟨some 7, some "hero"⟩

/-- Sample production-company entry. -/
def cStudio : CompanyEntry := ⟨some 3, some "Test Studio", some "US"⟩

/-- Sample cast entry; `profile_path` absent, so it defaults. -/
def actorOne : CastEntry := ⟨some 1, some "Test Actor", some 1, none, some "Main Character"⟩

/-- Second sample cast entry; `gender` absent, so it defaults to 0. -/
def actorTwo : CastEntry := ⟨some 4, some "Second Actor", none, some "p.jpg", some "Sidekick"⟩

/-- Crew entry with job exactly "Director". -/
def directorCrew : CrewEntry :=
  ⟨some 2, some "Test Director", some 2, none, some "Director", some "Directing"⟩

/-- Crew entry with job "Co-Director": must produce no DIRECTED edge. -/
def coDirectorCrew : CrewEntry :=
  ⟨some 5, some "Third Person", none, none, some "Co-Director", some "Directing"⟩

/-- Crew entry with job "director" (wrong case): must produce no edge. -/
def lowercaseDirectorCrew : CrewEntry :=
  ⟨some 6, some "Fourth Person", none, none, some "director", some "Directing"⟩

/-- A complete sample row exercising every collection. -/
def sampleRow : Row :=
  ⟨1, "Test Movie", "2023-01-01", 1000000, 2000000, 7, 8, 100, "Test overview",
   [gAction], [kHero], [cStudio], [actorOne, actorTwo],
   [directorCrew, coDirectorCrew, lowercaseDirectorCrew]⟩

/-- The transform's output for `[sampleRow]`. -/
def sampleOut : Output :=
  ⟨[⟨1, "Test Movie", "2023-01-01", 1000000, 2000000, 7, 8, 100, "Test overview"⟩],
   [⟨1, "Test Actor", 1, ""⟩, ⟨4, "Second Actor", 0, "p.jpg"⟩, ⟨2, "Test Director", 2, ""⟩],
   [⟨1, "Action"⟩], [⟨7, "hero"⟩], [⟨3, "Test Studio", "US"⟩],
   [⟨1, 1, "Main Character", 0⟩, ⟨4, 1, "Sidekick", 1⟩],
   [⟨2, 1, "Director", "Directing"⟩],
   [⟨1, 3⟩], [⟨1, 1⟩], [⟨1, 7⟩]⟩

/-- Cast entry whose person also directs the same movie. -/
def actorDirector : CastEntry := ⟨some 2, some "Jane Doe Actor", some 1, none, some "Lead"⟩

/-- Crew entry for the same person id 2, processed after the cast loop. -/
def directorCrewShared : CrewEntry :=
  ⟨some 2, some "Jane Doe Director", some 2, some "q.jpg", some "Director", some "Directing"⟩

/-- A row in which person 2 appears in the cast and as Director. -/
def rowShared : Row :=
  ⟨9, "Shared Movie", "2024-01-01", 5, 6, 7, 8, 9, "ov",
   [], [], [], [actorDirector], [directorCrewShared]⟩

/-- The transform's output for `[rowShared]`: person 2 has one record, the
crew occurrence (processed last) winning. -/
def sharedOut : Output :=
  ⟨[⟨9, "Shared Movie", "2024-01-01", 5, 6, 7, 8, 9, "ov"⟩],
   [⟨2, "Jane Doe Director", 2, "q.jpg"⟩], [], [], [],
   [⟨2, 9, "Lead", 0⟩], [⟨2, 9, "Director", "Directing"⟩], [], [], []⟩

/-- Cast entry lacking the `character` key. -/
def badActor : CastEntry := ⟨some 8, some "No Character", none, none, none⟩

/-- A row whose only flaw is `badActor`. -/
def badRow : Row := ⟨3, "Bad Movie", "", 0, 0, 0, 0, 0, "", [], [], [], [badActor], []⟩

/-- C5 counterexample: a cast entry lacking `character` aborts the whole
transform with the bare KeyError "character"; the identical error value
arises whether the offending row is first or second in the input, so the
raised error names the missing field but carries nothing identifying the
row, contrary to the claim. -/
theorem claim5_counterexample :
    transform_data [badRow] = .error ⟨"character"⟩ ∧
    transform_data [sampleRow, badRow] = .error ⟨"character"⟩ ∧
    sampleRow ≠ badRow := by
  refine ⟨rfl, rfl, by decide⟩

/-- Witness for C1 at the sample input. -/
theorem claim1_witness :
    transform_data [sampleRow] = .ok sampleOut ∧
    (entityAgrees sampleOut.persons Person.id (collectAll personPairs [sampleRow]) ∧
     entityAgrees sampleOut.genres Genre.id
       (collectAll (fun r => genrePairs r.genres) [sampleRow]) ∧
     entityAgrees sampleOut.keywords Keyword.id
       (collectAll (fun r => keywordPairs r.keywords) [sampleRow]) ∧
     entityAgrees sampleOut.companies Company.id
       (collectAll (fun r => companyPairs r.production_companies) [sampleRow])) :=
  ⟨rfl, claim1_entity_dedup [sampleRow] sampleOut rfl⟩

/-- Witness for C2 at the sample input (2 cast entries, orders 0 and 1). -/
theorem claim2_witness :
    transform_data [sampleRow] = .ok sampleOut ∧
    ([sampleRow].map Row.id).Nodup ∧ sampleRow ∈ [sampleRow] ∧
    (sampleOut.acted_in.filter (fun e => e.movie_id == sampleRow.id)
        = rowActedIn sampleRow ∧
     (sampleOut.acted_in.filter (fun e => e.movie_id == sampleRow.id)).length
        = min 10 sampleRow.cast.length ∧
     (sampleOut.acted_in.filter (fun e => e.movie_id == sampleRow.id)).map ActedIn.order
        = List.range (min 10 sampleRow.cast.length)) :=
  ⟨rfl, by decide, by decide,
   claim2_acted_in_per_movie [sampleRow] sampleOut sampleRow rfl (by decide) (by decide)⟩

/-- Witness for C3 at the sample input: of the three crew entries only the
exact "Director" one yields an edge. -/
theorem claim3_witness :
    transform_data [sampleRow] = .ok sampleOut ∧
    sampleOut.directed = collectAll (fun r =>
      (r.crew.filter fun c => c.job == some "Director").map fun c =>
        ⟨c.id.getD 0, r.id, c.job.getD "", c.department.getD ""⟩) [sampleRow] :=
  ⟨rfl, claim3_directed_exact [sampleRow] sampleOut rfl⟩

/-- Witness for C6: with only column id present, title is synthesized with
its default. -/
theorem claim6_witness :
    "title" ∈ required_columns ∧ "title" ∉ (["id"] : List String) ∧
    ("title", defaultFor "title") ∈ (addMissingColumns ["id"]).2 :=
  ⟨by decide, by decide,
   (claim6_missing_column_defaults ["id"]).2.1 "title" (by decide) (by decide)⟩

/-- Witness for C8: movie_id present and renamed to id. -/
theorem claim8_witness :
    "movie_id" ∈ (["movie_id", "title", "cast"] : List String) ∧
    resolve_credits_id ["movie_id", "title", "cast"]
      = .ok ((["movie_id", "title", "cast"] : List String).map
          fun c => if c = "movie_id" then "id" else c) :=
  ⟨by decide, (claim8_credits_key ["movie_id", "title", "cast"]).1 (by decide)⟩

/-- Witness for C9 at the sample input. -/
theorem claim9_witness :
    transform_data [sampleRow] = .ok sampleOut ∧
    (sampleOut.movies = [sampleRow].map movieOf ∧
     sampleOut.movies.length = [sampleRow].length) :=
  ⟨rfl, claim9_movies_per_row [sampleRow] sampleOut rfl⟩

/-- Witness for C10: person 2 acts in and directs the same movie; one
record, crew attributes winning. -/
theorem claim10_witness :
    transform_data [rowShared] = .ok sharedOut ∧
    rowShared ∈ [rowShared] ∧
    (2 : Int) ∈ (castPairs (rowShared.cast.take 10)).map Prod.fst ∧
    (2 : Int) ∈ (crewPairs rowShared.crew).map Prod.fst ∧
    ((sharedOut.persons.filter fun p => p.id == (2 : Int)).length = 1 ∧
     ∀ p ∈ sharedOut.persons, p.id = (2 : Int) →
       lastAssoc (collectAll personPairs [rowShared]) 2 = some p) :=
  ⟨rfl, by decide, by decide, by decide,
   claim10_shared_person_collection [rowShared] sharedOut rowShared rowShared 2
     rfl (by decide) (by decide) (by decide) (by decide)⟩

end MovieGraph
